import Mathlib

/-!
# Verification of the kingpin command-line parsing engine

Shallow embedding of the repository's lexer (`lexer.go`) and application
orchestration (`app.go`).  Go strings are modelled as `List Char` (matching
Go's rune iteration in `range`), Go's multiple-return `(T, error)` as
`T × Option Str` pairs, and pointer mutation as explicit state passing.

The flag/argument/command *group* machinery (the files `flags.go`,
`args.go`, `cmd.go` of the repository) is not part of the provided source;
those definitions are modelled from the specification and are marked
`Modelled from the spec:` in their doc comments.
-/

/-- Go strings, modelled as their sequence of runes. -/
abbrev Str := List Char

namespace Kingpin

/-- Token types, from `lexer.go`: `TokenShort`, `TokenLong`, `TokenArg`, `TokenEOF`. -/
inductive TokenType where
  | short
  | long
  | arg
  | eof
deriving DecidableEq, Repr

/-- A lexical token: `type Token struct { Type TokenType; Value string }`. -/
structure Token where
  type : TokenType
  value : Str
deriving DecidableEq, Repr

/-- `TokenEOFMarker = Token{TokenEOF, ""}`. -/
def TokenEOFMarker : Token := ⟨.eof, []⟩

/-- A token cursor is a slice of tokens (`type Tokens []*Token`). -/
abbrev Tokens := List Token

/-- `func (t *Token) IsFlag() bool`. -/
def Token.IsFlag (t : Token) : Bool :=
  t.type == .short || t.type == .long

/-- `func (t *Token) IsEOF() bool`. -/
def Token.IsEOF (t : Token) : Bool :=
  t.type == .eof

/-- `func (t *Token) String() string`. -/
def Token.str (t : Token) : Str :=
  match t.type with
  | .short => '-' :: t.value
  | .long => '-' :: '-' :: t.value
  | .arg => t.value
  | .eof => "<EOF>".toList

/-- `strings.Join(out, sep)`. -/
def joinSep (sep : Str) : List Str → Str
  | [] => []
  | [x] => x
  | x :: xs => x ++ sep ++ joinSep sep xs

/-- `func (t Tokens) String() string`: `"Tokens{" + strings.Join(out, ", ") + "}"`. -/
def Tokens.str (t : Tokens) : Str :=
  "Tokens\x7b".toList ++ joinSep ", ".toList (t.map Token.str) ++ "\x7d".toList

/-- `func (t Tokens) Next() (*Token, Tokens)`. -/
def Tokens.Next : Tokens → Token × Tokens
  | [] => (TokenEOFMarker, [])
  | t :: ts => (t, ts)

/-- `func (t Tokens) Return(token *Token) Tokens`: push-back; a no-op on EOF. -/
def Tokens.Return (t : Tokens) (token : Token) : Tokens :=
  if token.type = .eof then t else token :: t

/-- `func (t Tokens) Peek() *Token`. -/
def Tokens.Peek : Tokens → Token
  | [] => TokenEOFMarker
  | t :: _ => t

/-- One iteration of the loop body of `Tokenize` (`lexer.go`): lex a single raw
argument.  `strings.HasPrefix(arg, "--")` / `strings.HasPrefix(arg, "-")` become
pattern matches on the leading runes; `strings.SplitN(arg[2:], "=", 2)` becomes
`splitFirstEq`; `for _, a := range arg[1:]` iterates the remaining runes. -/
def tokenizeArg (arg : Str) : List Token :=
  if ['-', '-'].isPrefixOf arg then
    match splitFirstEq (arg.drop 2) with
    | (name, none) => [⟨.long, name⟩]
    | (name, some v) => [⟨.long, name⟩, ⟨.arg, v⟩]
  else if ['-'].isPrefixOf arg then
    (arg.drop 1).map (fun a => ⟨.short, [a]⟩)
  else [⟨.arg, arg⟩]
where
  /-- `strings.SplitN(s, "=", 2)`: the part before the first `=`, and the part
  after it when one occurs. -/
  splitFirstEq : Str → Str × Option Str
    | [] => ([], none)
    | c :: rest =>
      if c = '=' then ([], some rest)
      else
        let (a, b) := splitFirstEq rest
        (c :: a, b)

/-- `func Tokenize(args []string) (tokens Tokens)`: lex each raw argument in
order, appending the produced tokens. -/
def Tokenize : List Str → Tokens
  | [] => []
  | arg :: rest => tokenizeArg arg ++ Tokenize rest

/-- Modelled from the spec: a Flag Clause — long name, optional single-character
short alias, help text, required flag, optional default, whether the converter
reports a boolean (no-argument) flag, whether a dispatch hook is registered, and
the bound-value slot (mutated during resolution). -/
structure FlagClause where
  name : Str
  shortName : Option Char
  help : Str
  required : Bool
  defaultValue : Option Str
  isBoolFlag : Bool
  hasDispatch : Bool
  value : Option Str
deriving DecidableEq, Repr

/-- Modelled from the spec: an Argument Clause — name, help text, required and
variadic markers, dispatch-hook marker, and the bound values (a sequence, since
a variadic clause accumulates every remaining token). -/
structure ArgClause where
  name : Str
  help : Str
  required : Bool
  variadic : Bool
  hasDispatch : Bool
  value : List Str
deriving DecidableEq, Repr

/-- Modelled from the spec: a Command Clause owning its own flag group, argument
group and (recursively) command group.  The group's mapping and its
insertion-ordered sequence are modelled by the one ordered list. -/
inductive Cmd where
  | mk (name : Str) (help : Str) (flags : List FlagClause) (args : List ArgClause)
      (subs : List Cmd)

def Cmd.name : Cmd → Str
  | .mk n _ _ _ _ => n

def Cmd.help : Cmd → Str
  | .mk _ h _ _ _ => h

def Cmd.flags : Cmd → List FlagClause
  | .mk _ _ fs _ _ => fs

def Cmd.args : Cmd → List ArgClause
  | .mk _ _ _ as _ => as

def Cmd.subs : Cmd → List Cmd
  | .mk _ _ _ _ cs => cs

/-- Modelled from the spec: look a flag token up in the group, by long name for
a LongFlag token and by short alias for a ShortFlag token. -/
def lookupFlag (fs : List FlagClause) (tok : Token) : Option FlagClause :=
  if tok.type = .long then fs.find? (fun f => f.name == tok.value)
  else fs.find? (fun f => (f.shortName.map (fun c => [c])).getD [] == tok.value)

/-- Modelled from the spec: bind a value to the named clause's value slot. -/
def bindFlag (fs : List FlagClause) (name : Str) (v : Str) : List FlagClause :=
  fs.map (fun f => if f.name == name then { f with value := some v } else f)

/-- Modelled from the spec (§4.2, scan phase): while the next token is a flag
token, consume it, look it up (fail `unknown flag` if absent); a boolean flag
binds true and consumes no further token, any other flag consumes exactly one
following token of any kind as its value, failing `expected argument for flag`
at end-of-stream.  A non-flag token ends the scan. -/
def flagScan : List FlagClause → Tokens → List FlagClause × Tokens × Option Str
  | fs, [] => (fs, [], none)
  | fs, tok :: rest =>
    if tok.IsFlag then
      match lookupFlag fs tok with
      | none => (fs, rest, some ("unknown flag ".toList ++ tok.str))
      | some f =>
        if f.isBoolFlag then flagScan (bindFlag fs f.name "true".toList) rest
        else
          match rest with
          | [] => (fs, [], some ("expected argument for flag ".toList ++ tok.str))
          | vtok :: rest2 => flagScan (bindFlag fs f.name vtok.value) rest2
    else (fs, tok :: rest, none)

/-- Modelled from the spec (§4.2): flag-group resolution — scan, then unless
`helpRequested`, fail on the first declared required flag never bound. -/
def flagGroupParse (fs : List FlagClause) (toks : Tokens) (helpRequested : Bool) :
    List FlagClause × Tokens × Option Str :=
  match flagScan fs toks with
  | (fs', toks', some e) => (fs', toks', some e)
  | (fs', toks', none) =>
    if helpRequested then (fs', toks', none)
    else
      match fs'.find? (fun f => f.required && f.value.isNone) with
      | some f => (fs', toks', some ("required flag --".toList ++ f.name ++ " not provided".toList))
      | none => (fs', toks', none)

/-- Modelled from the spec (§4.3): argument-group resolution — iterate declared
clauses in order; a variadic clause absorbs every remaining token; otherwise
consume exactly one token per clause, failing on an exhausted cursor only when
the clause is required, and stopping (without failing) when it is optional. -/
def argGroupParse : List ArgClause → Tokens → List ArgClause × Tokens × Option Str
  | [], toks => ([], toks, none)
  | a :: rest, toks =>
    if a.variadic then
      ({ a with value := a.value ++ toks.map Token.value } :: rest, [], none)
    else
      match toks with
      | [] =>
        if a.required then
          (a :: rest, [], some ("required argument ".toList ++ a.name ++ " not provided".toList))
        else (a :: rest, [], none)
      | t :: ts =>
        let (rest', ts', e) := argGroupParse rest ts
        ({ a with value := [t.value] } :: rest', ts', e)

/-- Modelled from the spec: first initialization/validation error of a flag
group — no two clauses share a long name, no two share a short alias. -/
def flagGroupInit (fs : List FlagClause) : Option Str :=
  if (fs.map FlagClause.name).Nodup ∧ (fs.filterMap FlagClause.shortName).Nodup then none
  else some "duplicate flag".toList

/-- Modelled from the spec: argument-group validation — once an optional clause
appears no later clause may be required, and a variadic clause must be last. -/
def argGroupInitFrom : Bool → List ArgClause → Option Str
  | _, [] => none
  | seenOptional, a :: rest =>
    if seenOptional && a.required then
      some ("required argument ".toList ++ a.name ++ " follows optional".toList)
    else if a.variadic && !rest.isEmpty then
      some ("variadic argument ".toList ++ a.name ++ " must be last".toList)
    else argGroupInitFrom (seenOptional || !a.required) rest

/-- Modelled from the spec: argument-group validation entry point. -/
def argGroupInit (as : List ArgClause) : Option Str :=
  argGroupInitFrom false as

/-- Modelled from the spec: command-group validation — command names unique. -/
def cmdGroupInit (cs : List Cmd) : Option Str :=
  if (cs.map Cmd.name).Nodup then none else some "duplicate command".toList

mutual

/-- Modelled from the spec: validate one command — its own positional arguments
and its own subcommands are mutually exclusive; then validate its flag group,
command group, argument group and, recursively, each subcommand. -/
def Cmd.init : Cmd → Option Str
  | .mk n _ fs as subs =>
    if ¬as.isEmpty ∧ ¬subs.isEmpty then
      some ("can't mix Arg()s with Command()s in ".toList ++ n)
    else
      match flagGroupInit fs with
      | some e => some e
      | none =>
        match cmdGroupInit subs with
        | some e => some e
        | none =>
          match argGroupInit as with
          | some e => some e
          | none => Cmd.initList subs

/-- Modelled from the spec: first validation error among a list of commands. -/
def Cmd.initList : List Cmd → Option Str
  | [] => none
  | c :: cs =>
    match Cmd.init c with
    | some e => some e
    | none => Cmd.initList cs

end

mutual

/-- Modelled from the spec (§4.4, per command): after the command name is
consumed, delegate to the command's own flag group, then its own argument group
or, recursively, its own command group; prepend this command's name to any
child path. -/
def Cmd.parseOne : Cmd → Tokens → List Str × Tokens × Option Str
  | .mk n _ fs as subs, toks =>
    match flagGroupParse fs toks false with
    | (_, toks1, some e) => ([n], toks1, some e)
    | (_, toks1, none) =>
      if ¬as.isEmpty then
        match argGroupParse as toks1 with
        | (_, toks2, e) => ([n], toks2, e)
      else if ¬subs.isEmpty then
        match Cmd.parseGroup subs toks1 with
        | (path, toks2, e) => (n :: path, toks2, e)
      else ([n], toks1, none)

/-- Modelled from the spec (§4.4): peek the next token; a non-Value token or
end-of-stream fails `expected command`, an unrecognized name fails
`unknown command`, otherwise resolve the named command. -/
def Cmd.parseGroup : List Cmd → Tokens → List Str × Tokens × Option Str
  | _, [] => ([], [], some "expected command".toList)
  | cmds, t :: ts =>
    if t.type = .arg then Cmd.runNamed cmds t.value ts
    else ([], t :: ts, some "expected command".toList)

/-- Modelled from the spec: look the consumed name up in the group's ordered
sequence and resolve the matching command; `unknown command` if absent. -/
def Cmd.runNamed : List Cmd → Str → Tokens → List Str × Tokens × Option Str
  | [], name, ts => ([], ts, some ("unknown command ".toList ++ name))
  | c :: cs, name, ts =>
    if c.name == name then Cmd.parseOne c ts else Cmd.runNamed cs name ts

end

/-- The Application of `app.go`: a root flag group, root argument group and
root command group (each group's mapping and order modelled by one ordered
list), the one-shot `initialized` latch, the `commandHelp` binding target of
the synthetic help command's argument, and the name/help strings. -/
structure Application where
  flags : List FlagClause
  args : List ArgClause
  commands : List Cmd
  initialized : Bool
  commandHelp : Option Str
  name : Str
  help : Str

/-- Modelled from the spec: command registration — `a.Command(name, help)`
adds the clause to the group's mapping and appends it to the insertion-ordered
sequence. -/
def Application.Command (a : Application) (c : Cmd) : Application :=
  { a with commands := a.commands ++ [c] }

/-- The synthetic `help` command built inside `Application.init`:
`a.Command("help", "Show help for a command.")` with
`cmd.Arg("command", "Command name.").Required().Dispatch(...).String()`
(command/argument registration modelled from the spec). -/
def helpCommand : Cmd :=
  .mk "help".toList "Show help for a command.".toList []
    [⟨"command".toList, "Command name.".toList, true, false, true, []⟩] []

/-- `func (a *Application) init() error` (`app.go`): return nil at once when the
latch is set; reject mixing top-level args with commands; when commands exist,
register the synthetic help command and rotate the command order so it comes
first (`append(a.commandOrder[l:], a.commandOrder[:l]...)` with
`l = len(a.commandOrder) - 1`); then validate the flag group, command group,
argument group and every command, in that order, and set the latch on success.
Mutation of the receiver is modelled by returning the updated Application
alongside the error. -/
def Application.init (a : Application) : Option Str × Application :=
  if a.initialized then (none, a)
  else if ¬a.commands.isEmpty ∧ ¬a.args.isEmpty then
    (some "can't mix top-level Arg()s with Command()s".toList, a)
  else
    let a1 :=
      if 0 < a.commands.length then
        let aH := { a.Command helpCommand with commandHelp := some [] }
        let l := aH.commands.length - 1
        { aH with commands := aH.commands.drop l ++ aH.commands.take l }
      else a
    match flagGroupInit a1.flags with
    | some e => (some e, a1)
    | none =>
      match cmdGroupInit a1.commands with
      | some e => (some e, a1)
      | none =>
        match argGroupInit a1.args with
        | some e => (some e, a1)
        | none =>
          match Cmd.initList a1.commands with
          | some e => (some e, a1)
          | none => (none, { a1 with initialized := true })

/-- `func (a *Application) parse(tokens tokens) (tokens, string, error)`
(`app.go`): special-case a leading `help` token, resolve the root flag group,
then the root argument group or else the root command group, and join the
selected command path with spaces. -/
def Application.parseInner (a : Application) (toks : Tokens) : Tokens × Str × Option Str :=
  let runHelp := (Tokens.Peek toks).value == "help".toList
  match flagGroupParse a.flags toks runHelp with
  | (_, toks1, some e) => (toks1, [], some e)
  | (_, toks1, none) =>
    if ¬a.args.isEmpty then
      match argGroupParse a.args toks1 with
      | (_, toks2, e) => (toks2, joinSep " ".toList [], e)
    else if ¬a.commands.isEmpty then
      match Cmd.parseGroup a.commands toks1 with
      | (sel, toks2, e) => (toks2, joinSep " ".toList sel, e)
    else (toks1, joinSep " ".toList [], none)

/-- `func (a *Application) Parse(args []string) (command string, err error)`
(`app.go`): init, tokenize, resolve, then the final acceptance gate — any
remaining token yields an `unexpected argument(s)` error. -/
def Application.Parse (a : Application) (args : List Str) : Str × Option Str :=
  match a.init with
  | (some e, _) => ([], some e)
  | (none, a') =>
    match a'.parseInner (Tokenize args) with
    | (_, _, some e) => ([], some e)
    | (toks', command, none) =>
      if toks'.length = 1 then
        ([], some ("unexpected argument '".toList ++ toks'.str ++ "'".toList))
      else if 0 < toks'.length then
        ([], some ("unexpected arguments '".toList ++ toks'.str ++ "'".toList))
      else (command, none)

lemma splitFirstEq_spec (s : Str) :
    tokenizeArg.splitFirstEq s =
      (s.takeWhile (fun c => c != '='),
       if '=' ∈ s then some ((s.dropWhile (fun c => c != '=')).drop 1) else none) := by
  induction s with
  | nil => simp [tokenizeArg.splitFirstEq]
  | cons c rest ih =>
    by_cases hc : c = '='
    · subst hc
      simp [tokenizeArg.splitFirstEq]
    · simp only [tokenizeArg.splitFirstEq, if_neg hc, ih, List.takeWhile_cons,
        List.dropWhile_cons, bne_iff_ne, ne_eq, hc, not_false_eq_true, if_true, ite_true,
        List.mem_cons]
      have : ¬('=' = c) := fun h => hc h.symm
      simp [this]

lemma takeWhile_of_not_mem_eq {s : Str} (h : '=' ∉ s) :
    s.takeWhile (fun c => c != '=') = s := by
  induction s with
  | nil => rfl
  | cons c rest ih =>
    have hc : c ≠ '=' := fun hc => h (hc ▸ List.mem_cons_self c rest)
    have hr : '=' ∉ rest := fun hr => h (List.mem_cons_of_mem c hr)
    simp [List.takeWhile_cons, hc, ih hr]

lemma tokenize_append (xs ys : List Str) :
    Tokenize (xs ++ ys) = Tokenize xs ++ Tokenize ys := by
  induction xs with
  | nil => rfl
  | cons x xs ih => simp [Tokenize, ih]

lemma isPrefixOf_dash_of_not_mem {cs : Str} (h : '-' ∉ cs) :
    ['-'].isPrefixOf cs = false := by
  cases cs with
  | nil => rfl
  | cons c cs' =>
    have hc : ¬('-' = c) := fun hc => h (hc ▸ List.mem_cons_self c cs')
    simp [List.isPrefixOf, hc]

lemma tokenizeArg_cluster (cs : List Char) (h : '-' ∉ cs) :
    tokenizeArg ('-' :: cs) = cs.map (fun a => (⟨.short, [a]⟩ : Token)) := by
  have h1 : (['-', '-'].isPrefixOf ('-' :: cs)) = false := by
    simp [List.isPrefixOf, isPrefixOf_dash_of_not_mem h]
  have h2 : (['-'].isPrefixOf ('-' :: cs)) = true := by simp [List.isPrefixOf]
  simp [tokenizeArg, h1, h2]

lemma tokenize_dash_singletons (cs : List Char) (h : '-' ∉ cs) :
    Tokenize (cs.map (fun c => ['-', c])) = cs.map (fun a => (⟨.short, [a]⟩ : Token)) := by
  induction cs with
  | nil => rfl
  | cons c cs' ih =>
    have hc : ¬('-' = c) := fun hc => h (hc ▸ List.mem_cons_self c cs')
    have hr : '-' ∉ cs' := fun hr => h (List.mem_cons_of_mem c hr)
    have harg : tokenizeArg ['-', c] = [⟨.short, [c]⟩] := by
      simp [tokenizeArg, List.isPrefixOf, hc]
    simp [Tokenize, harg, ih hr]

end Kingpin

namespace Kingpin

/-- C5: a raw argument beginning with `--` lexes to exactly one LongFlag token
whose text is everything between the `--` prefix and the first `=` (the whole
remainder when no `=` occurs), followed by exactly one Value token holding
everything after the first `=` when an `=` is present, and by no Value token
otherwise. -/
theorem tokenize_long_inline_value (rest : Str) :
    Tokenize [('-' :: '-' :: rest)] =
      if '=' ∈ rest then
        [⟨.long, rest.takeWhile (fun c => c != '=')⟩,
         ⟨.arg, (rest.dropWhile (fun c => c != '=')).drop 1⟩]
      else [⟨.long, rest⟩] := by
  have hpre : (['-', '-'].isPrefixOf ('-' :: '-' :: rest)) = true := by
    simp [List.isPrefixOf]
  by_cases hm : '=' ∈ rest
  · simp [Tokenize, tokenizeArg, hpre, splitFirstEq_spec, hm]
  · simp [Tokenize, tokenizeArg, hpre, splitFirstEq_spec, hm, takeWhile_of_not_mem_eq hm]

/-- C6 counterexample: the raw argument `--a` is `-` followed by the characters
`-`,`a`, yet tokenizing it (one LongFlag `a`) differs from tokenizing the two
separate arguments `--` and `-a` (LongFlag `` then ShortFlag `a`). -/
theorem tokenize_cluster_counterexample :
    Tokenize [['-', '-', 'a']] ≠ Tokenize [['-', '-'], ['-', 'a']] := by decide

/-- C6 (amended): for a raw argument `-c1..cn` in which no `ci` is the
character `-`, tokenizing the cluster equals tokenizing the `n` separate
arguments `-c1` .. `-cn`. -/
theorem tokenize_cluster_equiv (cs : List Char) (h : '-' ∉ cs) :
    Tokenize [('-' :: cs)] = Tokenize (cs.map (fun c => ['-', c])) := by
  have hl : Tokenize [('-' :: cs)] = tokenizeArg ('-' :: cs) := by simp [Tokenize]
  rw [hl, tokenizeArg_cluster cs h, tokenize_dash_singletons cs h]

/-- C6 witness: the claim's own example, `-abc` versus `-a -b -c`. -/
theorem tokenize_cluster_equiv_witness :
    '-' ∉ ['a', 'b', 'c'] ∧
    Tokenize [['-', 'a', 'b', 'c']] = Tokenize [['-', 'a'], ['-', 'b'], ['-', 'c']] :=
  ⟨by decide, tokenize_cluster_equiv ['a', 'b', 'c'] (by decide)⟩

/-- C7: pushing back an EndOfStream token is a no-op; pushing back any non-EOF
token prepends it, so consuming with `Next` and returning the consumed token
restores the original cursor (for cursors whose tokens are all non-EOF, as every
`Tokenize` output is). -/
theorem tokens_return_spec (t : Tokens) (tok : Token) :
    (tok.type = .eof → t.Return tok = t) ∧
    (tok.type ≠ .eof → t.Return tok = tok :: t) ∧
    ((∀ x ∈ t, x.type ≠ TokenType.eof) →
      Tokens.Return (Tokens.Next t).2 (Tokens.Next t).1 = t) := by
  refine ⟨fun h => by simp [Tokens.Return, h], fun h => by simp [Tokens.Return, h], fun h => ?_⟩
  cases t with
  | nil => rfl
  | cons x ts =>
    have hx : x.type ≠ .eof := h x (List.mem_cons_self x ts)
    simp [Tokens.Next, Tokens.Return, hx]

/-- C7 witness: the three parts of `tokens_return_spec` at a concrete cursor. -/
theorem tokens_return_spec_witness :
    Tokens.Return [⟨.arg, ['x']⟩] ⟨.eof, []⟩ = [⟨.arg, ['x']⟩] ∧
    Tokens.Return [⟨.arg, ['x']⟩] ⟨.short, ['a']⟩ = ⟨.short, ['a']⟩ :: [⟨.arg, ['x']⟩] ∧
    Tokens.Return (Tokens.Next [⟨.arg, ['x']⟩]).2 (Tokens.Next [⟨.arg, ['x']⟩]).1 =
      [⟨.arg, ['x']⟩] :=
  ⟨(tokens_return_spec [⟨.arg, ['x']⟩] ⟨.eof, []⟩).1 rfl,
   (tokens_return_spec [⟨.arg, ['x']⟩] ⟨.short, ['a']⟩).2.1 (by decide),
   (tokens_return_spec [⟨.arg, ['x']⟩] ⟨.eof, []⟩).2.2 (by decide)⟩

/-- C8: the raw argument `-` (a single dash) lexes to no tokens at all — it is
silently dropped from the token stream wherever it occurs, rather than producing
a Value token or an error. -/
theorem tokenize_single_dash :
    Tokenize [['-']] = [] ∧
    ∀ before after : List Str,
      Tokenize (before ++ ['-'] :: after) = Tokenize before ++ Tokenize after := by
  refine ⟨rfl, fun before after => ?_⟩
  rw [tokenize_append]
  rfl

/-- C9: `--` lexes to a LongFlag token with empty name, `--=v` to a LongFlag
token with empty name followed by the Value token `v`, and a `--` argument has
no effect on how subsequent arguments are lexed (no POSIX end-of-flags
separator). -/
theorem tokenize_double_dash :
    Tokenize [['-', '-']] = [⟨.long, []⟩] ∧
    Tokenize [['-', '-', '=', 'v']] = [⟨.long, []⟩, ⟨.arg, ['v']⟩] ∧
    ∀ rest : List Str, Tokenize (['-', '-'] :: rest) = ⟨.long, []⟩ :: Tokenize rest := by
  exact ⟨rfl, rfl, fun rest => rfl⟩

end Kingpin

namespace Kingpin

lemma rotate_last_to_front (cs : List Cmd) (hc : Cmd) :
    ((cs ++ [hc]).drop ((cs ++ [hc]).length - 1)) ++
      ((cs ++ [hc]).take ((cs ++ [hc]).length - 1)) = hc :: cs := by
  have hl : (cs ++ [hc]).length - 1 = cs.length := by simp
  rw [hl, List.drop_left, List.take_left]
  rfl

/-- C1: whenever the inner resolution pass (root flag group, then root argument
group or root command group) succeeds but leaves tokens unconsumed, `Parse`
returns the empty command together with the `unexpected argument(s)` error. -/
theorem parse_trailing_arguments (a a' : Application) (args : List Str)
    (toks : Tokens) (cmd : Str)
    (hinit : a.init = (none, a'))
    (hparse : a'.parseInner (Tokenize args) = (toks, cmd, none))
    (hne : toks ≠ []) :
    a.Parse args =
      ([], some ((if toks.length = 1 then "unexpected argument '"
          else "unexpected arguments '").toList ++ toks.str ++ "'".toList)) := by
  simp only [Application.Parse, hinit, hparse]
  by_cases h1 : toks.length = 1
  · simp [h1]
  · have h0 : 0 < toks.length := List.length_pos.mpr hne
    simp [h1, h0]

/-- C1 witness: an already-initialized Application with no flags, arguments or
commands leaves the lone token of `["x"]` unconsumed, and `Parse` reports it. -/
theorem parse_trailing_arguments_witness :
    Application.Parse ⟨[], [], [], true, none, [], []⟩ [['x']] =
      ([], some ("unexpected argument '".toList ++ Tokens.str [⟨.arg, ['x']⟩] ++ "'".toList)) := by
  have h := parse_trailing_arguments ⟨[], [], [], true, none, [], []⟩
      ⟨[], [], [], true, none, [], []⟩ [['x']] [⟨.arg, ['x']⟩] [] rfl rfl (by decide)
  simpa using h

/-- C10: whenever `Parse` returns a non-nil error, the command string it
returns is empty — no partially resolved command path escapes with an error. -/
theorem parse_error_no_command (a : Application) (args : List Str) (cmd : Str) (e : Str)
    (h : a.Parse args = (cmd, some e)) : cmd = [] := by
  unfold Application.Parse at h
  split at h
  · exact ((Prod.mk.injEq _ _ _ _).mp h).1.symm
  · split at h
    · exact ((Prod.mk.injEq _ _ _ _).mp h).1.symm
    · split at h
      · exact ((Prod.mk.injEq _ _ _ _).mp h).1.symm
      · split at h
        · exact ((Prod.mk.injEq _ _ _ _).mp h).1.symm
        · exact absurd ((Prod.mk.injEq _ _ _ _).mp h).2 (by simp)

/-- C10 witness: at a concrete erroring input, the returned command is empty. -/
theorem parse_error_no_command_witness :
    (Application.Parse ⟨[], [], [], true, none, [], []⟩ [['x']]).1 = [] :=
  parse_error_no_command ⟨[], [], [], true, none, [], []⟩ [['x']]
    (Application.Parse ⟨[], [], [], true, none, [], []⟩ [['x']]).1
    ("unexpected argument '".toList ++ Tokens.str [⟨.arg, ['x']⟩] ++ "'".toList) rfl

end Kingpin

namespace Kingpin

/-- C3: an uninitialized Application declaring both top-level positional
arguments and top-level commands fails `init` with the mixing error, and
`Parse` returns that error (with no command) for every input, before any
token is looked at. -/
theorem init_conflicting_grammar (a : Application) (hini : a.initialized = false)
    (hargs : a.args ≠ []) (hcmds : a.commands ≠ []) :
    (a.init).1 = some "can't mix top-level Arg()s with Command()s".toList ∧
    ∀ args, a.Parse args =
      ([], some "can't mix top-level Arg()s with Command()s".toList) := by
  have h1 : a.init = (some "can't mix top-level Arg()s with Command()s".toList, a) := by
    unfold Application.init
    simp [hini, hargs, hcmds]
  refine ⟨by rw [h1], fun args => ?_⟩
  simp only [Application.Parse, h1]

/-- C3 witness: a concrete Application with one positional argument and one
command is rejected by `init` and by `Parse`, independent of the input. -/
theorem init_conflicting_grammar_witness :
    ((Application.mk [] [⟨['n'], [], true, false, false, []⟩] [.mk ['r'] [] [] [] []]
        false none [] []).init).1 =
      some "can't mix top-level Arg()s with Command()s".toList ∧
    (Application.mk [] [⟨['n'], [], true, false, false, []⟩] [.mk ['r'] [] [] [] []]
        false none [] []).Parse [['x']] =
      ([], some "can't mix top-level Arg()s with Command()s".toList) := by
  have h := init_conflicting_grammar
    (Application.mk [] [⟨['n'], [], true, false, false, []⟩] [.mk ['r'] [] [] [] []]
      false none [] []) rfl (by simp) (by simp)
  exact ⟨h.1, h.2 [['x']]⟩

end Kingpin

namespace Kingpin

/-- C4: initialization is idempotent — after a successful `init`, a second
`init` returns nil and the whole Application state, synthetic help command
included, is exactly what the first call produced. -/
theorem init_idempotent (a a' : Application) (h : a.init = (none, a')) :
    a'.init = (none, a') := by
  have hi : a'.initialized = true := by
    unfold Application.init at h
    dsimp only at h
    repeat' split at h
    all_goals
      first
      | (simp at h; done)
      | (injection h with h1 h2
         subst h2
         first
         | assumption
         | rfl)
  unfold Application.init
  simp [hi]

/-- C4 witness: the second `init` on a concretely initialized Application. -/
theorem init_idempotent_witness :
    ((Application.mk [] [] [.mk ['r'] [] [] [] []] false none [] []).init).2.init =
      (none, ((Application.mk [] [] [.mk ['r'] [] [] [] []] false none [] []).init).2) :=
  init_idempotent (Application.mk [] [] [.mk ['r'] [] [] [] []] false none [] [])
    ((Application.mk [] [] [.mk ['r'] [] [] [] []] false none [] []).init).2 rfl

end Kingpin

namespace Kingpin

/-- C2: when at least one command is declared, a successful first `init`
produces a command order whose first element is the synthetic `help` command —
which carries exactly one argument, named `command` and required — followed by
all previously declared commands in their original order. -/
theorem init_help_command_first (a a' : Application) (hini : a.initialized = false)
    (hcmds : a.commands ≠ []) (h : a.init = (none, a')) :
    a'.commands = helpCommand :: a.commands ∧
    helpCommand.name = "help".toList ∧
    helpCommand.args.map ArgClause.name = ["command".toList] ∧
    helpCommand.args.map ArgClause.required = [true] := by
  refine ⟨?_, rfl, rfl, rfl⟩
  have hlen : 0 < a.commands.length := List.length_pos.mpr hcmds
  unfold Application.init at h
  dsimp only at h
  rw [if_neg (show ¬a.initialized = true by simp [hini])] at h
  split at h
  · simp at h
  · simp only [if_pos hlen] at h
    repeat' split at h
    all_goals
      first
      | (simp at h; done)
      | (injection h with h1 h2
         subst h2
         dsimp only [Application.Command]
         exact rotate_last_to_front a.commands helpCommand)

/-- C2 witness: a concrete Application with one declared command `r`. -/
theorem init_help_command_first_witness :
    ((Application.mk [] [] [.mk ['r'] [] [] [] []] false none [] []).init).2.commands =
      helpCommand :: [.mk ['r'] [] [] [] []] ∧
    helpCommand.name = "help".toList ∧
    helpCommand.args.map ArgClause.name = ["command".toList] ∧
    helpCommand.args.map ArgClause.required = [true] :=
  init_help_command_first (Application.mk [] [] [.mk ['r'] [] [] [] []] false none [] [])
    ((Application.mk [] [] [.mk ['r'] [] [] [] []] false none [] []).init).2 rfl
    (List.cons_ne_nil _ _) rfl

end Kingpin
